import Mathlib

/-
Verification of the move validation / scoring engine and turn protocol of the
girlfriend-mode word game.  The definitions below are shallow embeddings of the
TypeScript source (app/Game.tsx, lib/game.ts, lib/tiles.ts); theorems settle
the specification's claims about them.
-/

set_option maxHeartbeats 1000000

namespace GM

/-- Tile from lib/tiles.ts: `{ id, letter, value }`. -/
structure Tile where
  id : String
  letter : String
  value : Nat
deriving DecidableEq

/-- Multiplier kinds; the TS type `Mult = "TW" | "DW" | "TL" | "DL" | null`
is modelled as `Option MultKind`. -/
inductive MultKind where
  | TW
  | DW
  | TL
  | DL
deriving DecidableEq

/-- Dense 15x15 tile board `(Tile | null)[][]`, modelled as a total function;
cells outside `[0,14] x [0,14]` are empty. -/
abbrev BoardT := Nat → Nat → Option Tile

/-- makeEmptyTileBoard() from app/Game.tsx. -/
def emptyTileBoard : BoardT := fun _ _ => none

/-- Writing one cell of the dense board (`board[row][col] = tile`). -/
def setCell (b : BoardT) (r c : Nat) (v : Option Tile) : BoardT :=
  fun r2 c2 => if r2 = r ∧ c2 = c then v else b r2 c2

/-- keyFor from app/Game.tsx: the coordinate key emitted for cell (row, col). -/
def keyFor (row col : Nat) : String :=
  "r" ++ toString row ++ "_c" ++ toString col

/-- Decimal digit string to number, as JavaScript `Number` on an all-digit string. -/
def digitsToNat (ds : List Char) : Nat :=
  ds.foldl (fun n c => n * 10 + (c.toNat - 48)) 0

/-- The regex `^r(\d+)_c(\d+)$` used by mapToBoard, as a parser on the key:
returns the two captured numbers when the whole key matches. -/
def parseKey (s : String) : Option (Nat × Nat) :=
  match s.data with
  | 'r' :: rest =>
    let ds1 := rest.takeWhile Char.isDigit
    let rest1 := rest.dropWhile Char.isDigit
    if ds1.isEmpty then none
    else
      match rest1 with
      | '_' :: 'c' :: rest2 =>
        let ds2 := rest2.takeWhile Char.isDigit
        let rest3 := rest2.dropWhile Char.isDigit
        if ds2.isEmpty then none
        else if rest3.isEmpty then some (digitsToNat ds1, digitsToNat ds2) else none
      | _ => none
  | _ => none

/-- The coordinates a sparse-map entry is hydrated to, if any: the key must
match the regex and both indices must lie in [0,14] (the `continue` guards in
mapToBoard; the row < 0 / NaN guards are vacuous over decimal digit matches). -/
def coordOf (e : String × Tile) : Option (Nat × Nat) :=
  match parseKey e.1 with
  | some (r, c) => if r ≤ 14 ∧ c ≤ 14 then some (r, c) else none
  | none => none

/-- One iteration of the mapToBoard hydration loop. -/
def mapStep (b : BoardT) (e : String × Tile) : BoardT :=
  match coordOf e with
  | some rc => setCell b rc.1 rc.2 (some e.2)
  | none => b

/-- The mapToBoard loop over a list of entries starting from a given board. -/
def mapToBoardAux (entries : List (String × Tile)) (b : BoardT) : BoardT :=
  entries.foldl mapStep b

/-- mapToBoard from app/Game.tsx: hydrate the dense board from the persisted
sparse map (a record, modelled as its entry list). -/
def mapToBoard (entries : List (String × Tile)) : BoardT :=
  mapToBoardAux entries emptyTileBoard

/-- boardToMap from app/Game.tsx: emit one entry per occupied cell, scanning
rows 0..14 and columns 0..14 in order. -/
def boardToMap (b : BoardT) : List (String × Tile) :=
  (List.range 15).flatMap fun r =>
    (List.range 15).filterMap fun c =>
      (b r c).map fun t => (keyFor r c, t)

/-- Record lookup on an entry list (JavaScript `m[k]` for a record with
unique keys). -/
def mapLookup (m : List (String × Tile)) (k : String) : Option Tile :=
  (m.find? fun e => e.1 == k).map fun e => e.2

/-- The multiplier grid, modelled as a total function (empty off-board). -/
abbrev MultBoard := Nat → Nat → Option MultKind

/-- Writing one cell of the multiplier grid (the `set` closure). -/
def setMult (b : MultBoard) (r c : Nat) (m : MultKind) : MultBoard :=
  fun r2 c2 => if r2 = r ∧ c2 = c then some m else b r2 c2

/-- mirrorCoords from buildScrabbleMultipliers: 4-way reflection of (r, c). -/
def mirrorCoords (r c : Nat) : List (Nat × Nat) :=
  [(r, c), (r, 14 - c), (14 - r, c), (14 - r, 14 - c)]

/-- placeSym from buildScrabbleMultipliers: write `m` at every reflection of
every coordinate in the list, in order. -/
def placeSym (b : MultBoard) (coords : List (Nat × Nat)) (m : MultKind) : MultBoard :=
  coords.foldl (fun b1 p => (mirrorCoords p.1 p.2).foldl (fun b2 q => setMult b2 q.1 q.2 m) b1) b

/-- Quadrant coordinate list TL from buildScrabbleMultipliers. -/
def tlCoords : List (Nat × Nat) := [(1, 5), (5, 1), (5, 5)]

/-- Quadrant coordinate list DL from buildScrabbleMultipliers. -/
def dlCoords : List (Nat × Nat) :=
  [(0, 3), (2, 6), (3, 0), (3, 7), (6, 2), (6, 6), (7, 3)]

/-- Quadrant coordinate list DW from buildScrabbleMultipliers (center star included). -/
def dwCoords : List (Nat × Nat) := [(1, 1), (2, 2), (3, 3), (4, 4), (7, 7)]

/-- Quadrant coordinate list TW from buildScrabbleMultipliers. -/
def twCoords : List (Nat × Nat) := [(0, 0), (0, 7), (7, 0)]

/-- buildScrabbleMultipliers from app/Game.tsx: apply the four symmetric
placements to the empty grid, in source order TW, DW, TL, DL. -/
def buildScrabbleMultipliers : MultBoard :=
  placeSym (placeSym (placeSym (placeSym (fun _ _ => none) twCoords MultKind.TW)
    dwCoords MultKind.DW) tlCoords MultKind.TL) dlCoords MultKind.DL

/-- The memoized multiplier grid used by the Game component. -/
def multipliers : MultBoard := buildScrabbleMultipliers

/-- One cell of a scored word extent: position plus the tile found there. -/
structure Cell where
  row : Nat
  col : Nat
  tile : Tile
deriving DecidableEq

/-- Result of computeMoveScore: `null`, `{ error }` or `{ score, word }`. -/
inductive MoveOutcome where
  | noMove
  | err (msg : String)
  | ok (score : Nat) (word : String)
deriving DecidableEq

/-- The `while (start > 0 && occupied (start - 1)) start -= 1` extension loop
of computeMoveScore, extending the extent downward through occupied cells. -/
def extendLow (occ : Nat → Bool) : Nat → Nat
  | 0 => 0
  | n + 1 => if occ n then extendLow occ n else n + 1

/-- The `while (end < 14 && occupied (end + 1)) end += 1` extension loop of
computeMoveScore, extending upward; fuel-driven, called with fuel 15 which is
more than the at most 14 possible iterations. -/
def extendHigh (occ : Nat → Bool) : Nat → Nat → Nat
  | 0, e => e
  | fuel + 1, e =>
    if e < 14 then (if occ (e + 1) then extendHigh occ fuel (e + 1) else e) else e

/-- `Math.min(...xs)` over a nonempty coordinate list. -/
def minNat : List Nat → Nat
  | [] => 0
  | x :: xs => xs.foldl Nat.min x

/-- `Math.max(...xs)` over a nonempty coordinate list. -/
def maxNat : List Nat → Nat
  | [] => 0
  | x :: xs => xs.foldl Nat.max x

/-- The extent walk of computeMoveScore: read every index of the span in
order, failing (`none`) at the first empty cell. -/
def collectIdx (get : Nat → Option Tile) : List Nat → Option (List (Nat × Tile))
  | [] => some []
  | i :: is =>
    match get i with
    | none => none
    | some t => (collectIdx get is).map fun cs => (i, t) :: cs

/-- The body of the scoring loop of computeMoveScore, folding
(wordMultiplier, letterSum) over one extent cell. -/
def scoreStep (staged : List (Nat × Nat)) (acc : Nat × Nat) (cell : Cell) : Nat × Nat :=
  let base := cell.tile.value
  if staged.contains (cell.row, cell.col) then
    let m := multipliers cell.row cell.col
    let ls :=
      match m with
      | some MultKind.DL => acc.2 + base * 2
      | some MultKind.TL => acc.2 + base * 3
      | _ => acc.2 + base
    let wm1 := if m == some MultKind.DW then acc.1 * 2 else acc.1
    let wm2 := if m == some MultKind.TW then wm1 * 3 else wm1
    (wm2, ls)
  else
    (acc.1, acc.2 + base)

/-- The scoring loop plus the final `{ score, word }` of computeMoveScore. -/
def scoreCells (staged : List (Nat × Nat)) (cells : List Cell) : MoveOutcome :=
  let r := cells.foldl (scoreStep staged) (1, 0)
  MoveOutcome.ok (r.2 * r.1) (String.join (cells.map fun cl => cl.tile.letter))

/-- The part of computeMoveScore that runs after the axis has been chosen
(`isHorizontal = sameRow`): extent extension, gap walk, scoring. -/
def computeFromAxis (isHorizontal : Bool) (staged : List (Nat × Nat))
    (row col : Nat) (b : BoardT) : MoveOutcome :=
  if isHorizontal then
    let cols := staged.map fun p => p.2
    let startCol := extendLow (fun c => (b row c).isSome) (minNat cols)
    let endCol := extendHigh (fun c => (b row c).isSome) 15 (maxNat cols)
    match collectIdx (fun c => b row c) (List.range' startCol (endCol + 1 - startCol)) with
    | none => MoveOutcome.err "There is a gap in the word."
    | some pairs => scoreCells staged (pairs.map fun q => ⟨row, q.1, q.2⟩)
  else
    let rows := staged.map fun p => p.1
    let startRow := extendLow (fun r => (b r col).isSome) (minNat rows)
    let endRow := extendHigh (fun r => (b r col).isSome) 15 (maxNat rows)
    match collectIdx (fun r => b r col) (List.range' startRow (endRow + 1 - startRow)) with
    | none => MoveOutcome.err "There is a gap in the word."
    | some pairs => scoreCells staged (pairs.map fun q => ⟨q.1, col, q.2⟩)

/-- computeMoveScore from app/Game.tsx.  `staged` is the staged position set
(insertion order), `locked` the locked position set, `b` the dense board
holding both locked and staged tiles. -/
def computeMoveScore (staged locked : List (Nat × Nat)) (b : BoardT) : MoveOutcome :=
  match staged with
  | [] => MoveOutcome.noMove
  | p0 :: rest =>
    if locked.isEmpty && !((p0 :: rest).contains (7, 7)) then
      MoveOutcome.err "First move must use the center square."
    else if !((p0 :: rest).all fun p => p.1 == p0.1)
        && !((p0 :: rest).all fun p => p.2 == p0.2) then
      MoveOutcome.err "Place tiles in a single row or column."
    else
      computeFromAxis ((p0 :: rest).all fun p => p.1 == p0.1) (p0 :: rest) p0.1 p0.2 b

/-- The scored word extent of computeMoveScore, exposed: `some cells` exactly
when the validator reaches the scoring loop, with the same cells in the same
order; `none` on every no-move or error path. -/
def cellsFromAxis (isHorizontal : Bool) (staged : List (Nat × Nat))
    (row col : Nat) (b : BoardT) : Option (List Cell) :=
  if isHorizontal then
    let cols := staged.map fun p => p.2
    let startCol := extendLow (fun c => (b row c).isSome) (minNat cols)
    let endCol := extendHigh (fun c => (b row c).isSome) 15 (maxNat cols)
    match collectIdx (fun c => b row c) (List.range' startCol (endCol + 1 - startCol)) with
    | none => none
    | some pairs => some (pairs.map fun q => ⟨row, q.1, q.2⟩)
  else
    let rows := staged.map fun p => p.1
    let startRow := extendLow (fun r => (b r col).isSome) (minNat rows)
    let endRow := extendHigh (fun r => (b r col).isSome) 15 (maxNat rows)
    match collectIdx (fun r => b r col) (List.range' startRow (endRow + 1 - startRow)) with
    | none => none
    | some pairs => some (pairs.map fun q => ⟨q.1, col, q.2⟩)

/-- The scored word extent of a whole computeMoveScore run (see cellsFromAxis). -/
def scoredCells (staged locked : List (Nat × Nat)) (b : BoardT) : Option (List Cell) :=
  match staged with
  | [] => none
  | p0 :: rest =>
    if locked.isEmpty && !((p0 :: rest).contains (7, 7)) then none
    else if !((p0 :: rest).all fun p => p.1 == p0.1)
        && !((p0 :: rest).all fun p => p.2 == p0.2) then none
    else
      cellsFromAxis ((p0 :: rest).all fun p => p.1 == p0.1) (p0 :: rest) p0.1 p0.2 b

/-- Letter multiplier of a bonus square, from the spec: x2 for double-letter,
x3 for triple-letter, x1 otherwise. -/
def letterMultiplier : Option MultKind → Nat
  | some MultKind.DL => 2
  | some MultKind.TL => 3
  | _ => 1

/-- Word multiplier of a bonus square, from the spec: x2 for double-word,
x3 for triple-word, x1 otherwise. -/
def wordMultiplierOf : Option MultKind → Nat
  | some MultKind.DW => 2
  | some MultKind.TW => 3
  | _ => 1

/-- Per-cell letter contribution, from the spec: a staged cell contributes its
tile's base value times the square's letter multiplier, a reused locked cell
only its base value. -/
def cellScore (staged : List (Nat × Nat)) (cell : Cell) : Nat :=
  if staged.contains (cell.row, cell.col) then
    cell.tile.value * letterMultiplier (multipliers cell.row cell.col)
  else
    cell.tile.value

/-- Per-cell factor of the word-multiplier product, from the spec: a staged
cell contributes the square's word multiplier, a reused locked cell 1. -/
def cellWordMult (staged : List (Nat × Nat)) (cell : Cell) : Nat :=
  if staged.contains (cell.row, cell.col) then
    wordMultiplierOf (multipliers cell.row cell.col)
  else
    1

/-- Game status from lib/game.ts. -/
inductive GameStatus where
  | waiting
  | active
  | finished
deriving DecidableEq

/-- Last-move record written by commit / pass / undo, including the full
pre-move snapshot. -/
structure LastMove where
  word : String
  score : Nat
  byUid : String
  atTime : Nat
  prevBoardTiles : List (String × Tile)
  prevBag : List Tile
  prevRacks : String → Option (List Tile)
  prevScores : String → Option Nat
  prevActivePlayerUid : String

/-- The persisted Game entity (lib/game.ts interface Game plus lastMove). -/
structure Game where
  status : GameStatus
  player1Uid : String
  player2Uid : Option String
  activePlayerUid : String
  bag : List Tile
  racks : String → Option (List Tile)
  boardTiles : List (String × Tile)
  scores : String → Option Nat
  lastMove : Option LastMove
  updatedAt : Nat

/-- A `Partial<Game>` patch handed to commitMove: `none` fields are absent
from the patch and left untouched by the store's merge. -/
structure GamePatch where
  status : Option GameStatus := none
  player1Uid : Option String := none
  player2Uid : Option (Option String) := none
  activePlayerUid : Option String := none
  bag : Option (List Tile) := none
  racks : Option (String → Option (List Tile)) := none
  boardTiles : Option (List (String × Tile)) := none
  scores : Option (String → Option Nat) := none
  lastMove : Option LastMove := none
  updatedAt : Option Nat := none

/-- The merge a partial write performs on the persisted Game (firebase
`update`: present top-level fields replace, absent fields survive). -/
def applyPatch (g : Game) (p : GamePatch) : Game where
  status := p.status.getD g.status
  player1Uid := p.player1Uid.getD g.player1Uid
  player2Uid := p.player2Uid.getD g.player2Uid
  activePlayerUid := p.activePlayerUid.getD g.activePlayerUid
  bag := p.bag.getD g.bag
  racks := p.racks.getD g.racks
  boardTiles := p.boardTiles.getD g.boardTiles
  scores := p.scores.getD g.scores
  lastMove := match p.lastMove with
    | some lm => some lm
    | none => g.lastMove
  updatedAt := p.updatedAt.getD g.updatedAt

/-- The `nextActivePlayerUid` expression of handleCommitMove and
handlePassTurn: flip to the other seated player if a second player is seated
and the active player is one of the two, otherwise keep. -/
def nextActivePlayerUid (player1Uid : String) (player2Uid : Option String)
    (activePlayerUid : String) : String :=
  match player2Uid with
  | some p2 =>
    if activePlayerUid = player1Uid then p2
    else if activePlayerUid = p2 then player1Uid
    else activePlayerUid
  | none => activePlayerUid

/-- The patch written by handleCommitMove for a validated result
`{ score, word }`, given the local dense board, rack and bag. -/
def commitMovePatch (g : Game) (uid : String) (score : Nat) (word : String)
    (localBoard : BoardT) (rack bag : List Tile) (now : Nat) : GamePatch :=
  let need := 7 - rack.length
  let drawn := bag.take need
  let nextBag := bag.drop need
  let nextRack := rack ++ drawn
  { boardTiles := some (boardToMap localBoard)
    bag := some nextBag
    racks := some fun u => if u = uid then some nextRack else g.racks u
    scores := some fun u => if u = uid then some ((g.scores uid).getD 0 + score) else g.scores u
    activePlayerUid := some (nextActivePlayerUid g.player1Uid g.player2Uid g.activePlayerUid)
    lastMove := some
      { word := word
        score := score
        byUid := uid
        atTime := now
        prevBoardTiles := g.boardTiles
        prevBag := g.bag
        prevRacks := g.racks
        prevScores := g.scores
        prevActivePlayerUid := g.activePlayerUid }
    updatedAt := some now }

/-- The patch written by handlePassTurn. -/
def passTurnPatch (g : Game) (uid : String) (now : Nat) : GamePatch :=
  { activePlayerUid := some (nextActivePlayerUid g.player1Uid g.player2Uid g.activePlayerUid)
    lastMove := some
      { word := "PASS"
        score := 0
        byUid := uid
        atTime := now
        prevBoardTiles := g.boardTiles
        prevBag := g.bag
        prevRacks := g.racks
        prevScores := g.scores
        prevActivePlayerUid := g.activePlayerUid }
    updatedAt := some now }

/-- The patch written by handleUndoMove for the recorded last move `lm`. -/
def undoMovePatch (lm : LastMove) (uid : String) (now : Nat) : GamePatch :=
  { boardTiles := some lm.prevBoardTiles
    bag := some lm.prevBag
    racks := some lm.prevRacks
    scores := some lm.prevScores
    activePlayerUid := some lm.prevActivePlayerUid
    lastMove := some
      { word := "UNDO"
        score := 0
        byUid := uid
        atTime := now
        prevBoardTiles := lm.prevBoardTiles
        prevBag := lm.prevBag
        prevRacks := lm.prevRacks
        prevScores := lm.prevScores
        prevActivePlayerUid := lm.prevActivePlayerUid }
    updatedAt := some now }

/-- canUndoLastMove from app/Game.tsx.  `userUid` is `user?.uid`,
`stagedCount` the size of the staged position set. -/
def canUndoLastMove (lastMove : Option LastMove) (userUid : Option String)
    (stagedCount : Nat) : Bool :=
  match lastMove with
  | none => false
  | some lm =>
    (some lm.byUid == userUid) && (lm.word != "UNDO") && !(decide (0 < stagedCount))

/-- addToSet on the staged position set (JS `Set.add` semantics). -/
def addToSet (l : List (Nat × Nat)) (p : Nat × Nat) : List (Nat × Nat) :=
  if l.contains p then l else l ++ [p]

/-- removeFromSet on the staged position set (JS `Set.delete` semantics). -/
def removeFromSet (l : List (Nat × Nat)) (p : Nat × Nat) : List (Nat × Nat) :=
  l.filter fun q => q ≠ p

/-- appendToRack from app/Game.tsx: append, dropping incoming tiles whose id
is already present in the rack. -/
def appendToRack (prevRack incoming : List Tile) : List Tile :=
  prevRack ++ incoming.filter fun t => !(prevRack.any fun x => x.id == t.id)

/-- The local client state the Move Assembler mutates. -/
structure LocalState where
  board : BoardT
  rack : List Tile
  staged : List (Nat × Nat)

/-- handleBoardCellClick from app/Game.tsx, as a pure transition on the local
state; `selectedTile` is the selected rack tile, `locked` the locked set. -/
def handleBoardCellClick (selectedTile : Option Tile) (locked : List (Nat × Nat))
    (st : LocalState) (row col : Nat) : LocalState :=
  match st.board row col with
  | some t =>
    match selectedTile with
    | some _ => st
    | none =>
      if locked.contains (row, col) then st
      else
        { board := setCell st.board row col none
          rack := appendToRack st.rack [t]
          staged := removeFromSet st.staged (row, col) }
  | none =>
    match selectedTile with
    | some sel =>
      { board := setCell st.board row col (some sel)
        rack := st.rack.filter fun t => t.id ≠ sel.id
        staged := addToSet st.staged (row, col) }
    | none => st

/-- Drag source of a pointer drag (dragState.source). -/
inductive DragSource where
  | rack (tileId : String)
  | board (tileId : String) (row col : Nat)

/-- Drop target of a pointer drag (getDropTarget result, `none` = outside). -/
inductive DropTarget where
  | board (row col : Nat)
  | rack

/-- commitDrop from app/Game.tsx, as a pure transition on the local state,
split over the drop target and the drag source; within each branch the guard
order of the source is preserved. -/
def commitDrop (locked : List (Nat × Nat)) (dragTile : Tile) (source : DragSource)
    (target : Option DropTarget) (st : LocalState) : LocalState :=
  match target, source with
  | none, _ => st
  | some (DropTarget.board trow tcol), DragSource.rack _ =>
    match st.board trow tcol with
    | some _ => st
    | none =>
      { board := setCell st.board trow tcol (some dragTile)
        rack := st.rack.filter fun t => t.id ≠ dragTile.id
        staged := addToSet st.staged (trow, tcol) }
  | some (DropTarget.board trow tcol), DragSource.board _ srow scol =>
    match st.board trow tcol with
    | some _ => st
    | none =>
      if locked.contains (srow, scol) then st
      else if srow = trow ∧ scol = tcol then st
      else
        match st.board srow scol with
        | none => st
        | some t =>
          { board := setCell (setCell st.board srow scol none) trow tcol (some t)
            rack := st.rack
            staged := addToSet (removeFromSet st.staged (srow, scol)) (trow, tcol) }
  | some DropTarget.rack, DragSource.board _ srow scol =>
    match st.board srow scol with
    | none => st
    | some t =>
      if locked.contains (srow, scol) then st
      else
        { board := setCell st.board srow scol none
          rack := appendToRack st.rack [t]
          staged := removeFromSet st.staged (srow, scol) }
  | some DropTarget.rack, DragSource.rack _ => st

/- =====================  helper lemmas  ===================== -/

theorem find?_append_gm (p : α → Bool) (l1 l2 : List α) :
    (l1 ++ l2).find? p =
      match l1.find? p with
      | some x => some x
      | none => l2.find? p := by
  induction l1 with
  | nil => rfl
  | cons a l1 ih =>
    simp only [List.cons_append, List.find?]
    cases p a <;> simp [ih]

theorem find?_eq_none_of_gm (p : α → Bool) (l : List α)
    (h : ∀ x ∈ l, p x = false) : l.find? p = none := by
  induction l with
  | nil => rfl
  | cons a l ih =>
    simp only [List.find?]
    rw [h a (List.mem_cons_self a l)]
    exact ih fun x hx => h x (List.mem_cons_of_mem a hx)

theorem find?_eq_some_of_unique_gm (p : α → Bool) (l : List α) (x : α)
    (hx : x ∈ l) (hp : p x = true) (hu : ∀ y ∈ l, p y = true → y = x) :
    l.find? p = some x := by
  induction l with
  | nil => cases hx
  | cons a l ih =>
    simp only [List.find?]
    by_cases ha : p a = true
    · rw [ha]
      exact congrArg some (hu a (List.mem_cons_self a l) ha)
    · rw [Bool.not_eq_true] at ha
      rw [ha]
      rcases List.mem_cons.mp hx with rfl | hx2
      · rw [hp] at ha; cases ha
      · exact ih hx2 fun y hy hpy => hu y (List.mem_cons_of_mem a hy) hpy

theorem setCell_same (b : BoardT) (r c : Nat) (v : Option Tile) :
    setCell b r c v r c = v := by
  simp [setCell]

theorem setCell_other (b : BoardT) (r c r2 c2 : Nat) (v : Option Tile)
    (h : ¬(r2 = r ∧ c2 = c)) : setCell b r c v r2 c2 = b r2 c2 := by
  simp [setCell, h]

/-- What one hydrated cell ends up as: the value of the last entry whose key
parses to that cell, else the initial board's value. -/
theorem mapToBoardAux_apply (entries : List (String × Tile)) (b0 : BoardT) (r c : Nat) :
    mapToBoardAux entries b0 r c =
      match entries.reverse.find? (fun e => coordOf e == some (r, c)) with
      | some e => some e.2
      | none => b0 r c := by
  induction entries generalizing b0 with
  | nil => rfl
  | cons e es ih =>
    have step : mapToBoardAux (e :: es) b0 = mapToBoardAux es (mapStep b0 e) := rfl
    rw [step, ih, List.reverse_cons, find?_append_gm]
    cases hfind : es.reverse.find? (fun e2 => coordOf e2 == some (r, c)) with
    | some x => rfl
    | none =>
      cases hco : coordOf e with
      | none => simp [List.find?, mapStep, hco]
      | some rc =>
        by_cases hrc : rc = (r, c)
        · subst hrc
          simp [List.find?, mapStep, hco, setCell]
        · have hne : ¬(r = rc.1 ∧ c = rc.2) := by
            intro hand
            exact hrc (Prod.ext hand.1.symm hand.2.symm)
          have hb : (rc == (r, c)) = false := beq_eq_false_iff_ne.mpr hrc
          simp [List.find?, mapStep, hco, hb, setCell, hne]

theorem coordOf_range (e : String × Tile) (a b : Nat)
    (h : coordOf e = some (a, b)) : a ≤ 14 ∧ b ≤ 14 := by
  unfold coordOf at h
  cases hp : parseKey e.1 with
  | none => rw [hp] at h; cases h
  | some rc =>
    rw [hp] at h
    by_cases hle : rc.1 ≤ 14 ∧ rc.2 ≤ 14
    · simp only [hle, if_pos] at h
      cases h
      exact hle
    · simp [hle] at h

theorem parseKey_keyFor : ∀ r c : Fin 15, parseKey (keyFor r.val c.val) = some (r.val, c.val) := by
  decide

theorem coordOf_keyFor (r c : Fin 15) (t : Tile) :
    coordOf (keyFor r.val c.val, t) = some (r.val, c.val) := by
  have h := parseKey_keyFor r c
  have hr : r.val ≤ 14 := Nat.lt_succ_iff.mp r.isLt
  have hc : c.val ≤ 14 := Nat.lt_succ_iff.mp c.isLt
  simp [coordOf, h, hr, hc]

theorem keyFor_inj (r c r2 c2 : Fin 15)
    (h : keyFor r.val c.val = keyFor r2.val c2.val) : r.val = r2.val ∧ c.val = c2.val := by
  have h1 := parseKey_keyFor r c
  have h2 := parseKey_keyFor r2 c2
  rw [h, h2] at h1
  have h3 := Option.some.inj h1
  rw [Prod.ext_iff] at h3
  exact ⟨h3.1.symm, h3.2.symm⟩

theorem mem_boardToMap (b : BoardT) (e : String × Tile) :
    e ∈ boardToMap b ↔
      ∃ r c, r < 15 ∧ c < 15 ∧ b r c = some e.2 ∧ e.1 = keyFor r c := by
  constructor
  · intro h
    rcases List.mem_flatMap.mp h with ⟨r, hr, hmem⟩
    rcases List.mem_filterMap.mp hmem with ⟨c, hc, heq⟩
    rcases Option.map_eq_some'.mp heq with ⟨t, hb, het⟩
    refine ⟨r, c, List.mem_range.mp hr, List.mem_range.mp hc, ?_, ?_⟩
    · rw [← het]; exact hb
    · rw [← het]
  · rintro ⟨r, c, hr, hc, hb, hk⟩
    refine List.mem_flatMap.mpr ⟨r, List.mem_range.mpr hr, ?_⟩
    refine List.mem_filterMap.mpr ⟨c, List.mem_range.mpr hc, ?_⟩
    rw [hb]
    simp only [Option.map_some']
    cases e with
    | mk k t =>
      simp only at hk hb ⊢
      rw [hk]

theorem mapToBoard_outOfRange (m : List (String × Tile)) (r c : Nat)
    (h : 15 ≤ r ∨ 15 ≤ c) : mapToBoard m r c = none := by
  unfold mapToBoard
  rw [mapToBoardAux_apply]
  have hnone : m.reverse.find? (fun e => coordOf e == some (r, c)) = none := by
    apply find?_eq_none_of_gm
    intro e he
    cases hco : coordOf e with
    | none => simp [hco]
    | some rc =>
      have hrange := coordOf_range e rc.1 rc.2 (by rw [hco])
      have : rc ≠ (r, c) := by
        intro heq
        rw [heq] at hrange
        omega
      simp [hco, this]
  rw [hnone]
  rfl

theorem boardToMap_wf (b : BoardT) :
    ∀ e ∈ boardToMap b, ∃ r c : Fin 15, e.1 = keyFor r.val c.val := by
  intro e he
  rcases (mem_boardToMap b e).mp he with ⟨r, c, hr, hc, _, hk⟩
  exact ⟨⟨r, hr⟩, ⟨c, hc⟩, hk⟩

theorem boardToMap_uniq (b : BoardT) :
    ∀ e ∈ boardToMap b, ∀ e2 ∈ boardToMap b, e.1 = e2.1 → e = e2 := by
  intro e he e2 he2 hk
  rcases (mem_boardToMap b e).mp he with ⟨r, c, hr, hc, hb1, hk1⟩
  rcases (mem_boardToMap b e2).mp he2 with ⟨r2, c2, hr2, hc2, hb2, hk2⟩
  have hkeys : keyFor r c = keyFor r2 c2 := by rw [← hk1, ← hk2, hk]
  have hij := keyFor_inj ⟨r, hr⟩ ⟨c, hc⟩ ⟨r2, hr2⟩ ⟨c2, hc2⟩ hkeys
  simp only at hij
  rw [hij.1, hij.2] at hb1
  rw [hb1] at hb2
  have hv : e.2 = e2.2 := Option.some.inj hb2
  exact Prod.ext hk hv

theorem lookup_boardToMap_keyFor (b : BoardT) (r c : Fin 15) :
    mapLookup (boardToMap b) (keyFor r.val c.val) = b r.val c.val := by
  cases hb : b r.val c.val with
  | some t =>
    have hx : (keyFor r.val c.val, t) ∈ boardToMap b :=
      (mem_boardToMap b _).mpr ⟨r.val, c.val, r.isLt, c.isLt, hb, rfl⟩
    have hfind := find?_eq_some_of_unique_gm (fun e => e.1 == keyFor r.val c.val)
      (boardToMap b) (keyFor r.val c.val, t) hx (by simp) ?_
    · unfold mapLookup
      rw [hfind]
      rfl
    · intro y hy hpy
      have hk : y.1 = keyFor r.val c.val := by simpa using hpy
      exact boardToMap_uniq b y hy (keyFor r.val c.val, t) hx hk
  | none =>
    have hfind : (boardToMap b).find? (fun e => e.1 == keyFor r.val c.val) = none := by
      apply find?_eq_none_of_gm
      intro y hy
      rcases (mem_boardToMap b y).mp hy with ⟨r2, c2, hr2, hc2, hb2, hk2⟩
      by_cases hk : y.1 = keyFor r.val c.val
      · rw [hk] at hk2
        have hij := keyFor_inj r c ⟨r2, hr2⟩ ⟨c2, hc2⟩ hk2
        simp only at hij
        rw [← hij.1, ← hij.2] at hb2
        rw [hb] at hb2
        cases hb2
      · simp [hk]
    unfold mapLookup
    rw [hfind]
    rfl

theorem mapToBoard_eq_lookup (m : List (String × Tile))
    (hwf : ∀ e ∈ m, ∃ r c : Fin 15, e.1 = keyFor r.val c.val)
    (huniq : ∀ e ∈ m, ∀ e2 ∈ m, e.1 = e2.1 → e = e2) (r c : Fin 15) :
    mapToBoard m r.val c.val = mapLookup m (keyFor r.val c.val) := by
  have coordOf_of_mem : ∀ y ∈ m, ∀ ry cy : Fin 15, y.1 = keyFor ry.val cy.val →
      coordOf y = some (ry.val, cy.val) := by
    intro y _ ry cy hk
    have : y = (keyFor ry.val cy.val, y.2) := Prod.ext hk rfl
    rw [this]
    exact coordOf_keyFor ry cy y.2
  by_cases hex : ∃ e ∈ m, e.1 = keyFor r.val c.val
  · obtain ⟨e0, he0, hk0⟩ := hex
    have hco0 : coordOf e0 = some (r.val, c.val) := coordOf_of_mem e0 he0 r c hk0
    have huy : ∀ y ∈ m.reverse, (coordOf y == some (r.val, c.val)) = true → y = e0 := by
      intro y hy hpy
      have hym : y ∈ m := List.mem_reverse.mp hy
      rcases hwf y hym with ⟨ry, cy, hky⟩
      have hcoy := coordOf_of_mem y hym ry cy hky
      rw [hcoy] at hpy
      have heq : ry.val = r.val ∧ cy.val = c.val := by simpa using hpy
      have : y.1 = e0.1 := by
        rw [hky, hk0, heq.1, heq.2]
      exact huniq y hym e0 he0 this
    have hfind1 : m.reverse.find? (fun e => coordOf e == some (r.val, c.val)) = some e0 :=
      find?_eq_some_of_unique_gm _ _ e0 (List.mem_reverse.mpr he0) (by simp [hco0]) huy
    have hfind2 : m.find? (fun e => e.1 == keyFor r.val c.val) = some e0 :=
      find?_eq_some_of_unique_gm _ _ e0 he0 (by simp [hk0]) (by
        intro y hy hpy
        have hk : y.1 = e0.1 := by
          rw [hk0]
          simpa using hpy
        exact huniq y hy e0 he0 hk)
    unfold mapToBoard mapLookup
    rw [mapToBoardAux_apply, hfind1, hfind2]
    rfl
  · have hfind1 : m.reverse.find? (fun e => coordOf e == some (r.val, c.val)) = none := by
      apply find?_eq_none_of_gm
      intro y hy
      have hym : y ∈ m := List.mem_reverse.mp hy
      rcases hwf y hym with ⟨ry, cy, hky⟩
      have hcoy := coordOf_of_mem y hym ry cy hky
      rw [hcoy]
      by_cases heq : (ry.val, cy.val) = (r.val, c.val)
      · exfalso
        have heq2 : ry.val = r.val ∧ cy.val = c.val := by
          simpa [Prod.ext_iff] using heq
        exact hex ⟨y, hym, by rw [hky, heq2.1, heq2.2]⟩
      · simp [heq]
    have hfind2 : m.find? (fun e => e.1 == keyFor r.val c.val) = none := by
      apply find?_eq_none_of_gm
      intro y hy
      by_cases hk : y.1 = keyFor r.val c.val
      · exact absurd ⟨y, hy, hk⟩ hex
      · simp [hk]
    unfold mapToBoard mapLookup
    rw [mapToBoardAux_apply, hfind1, hfind2]
    rfl

theorem scoreStep_eq (staged : List (Nat × Nat)) (acc : Nat × Nat) (cell : Cell) :
    scoreStep staged acc cell =
      (acc.1 * cellWordMult staged cell, acc.2 + cellScore staged cell) := by
  unfold scoreStep cellWordMult cellScore letterMultiplier wordMultiplierOf
  by_cases hc : staged.contains (cell.row, cell.col) = true
  · have hmem : (cell.row, cell.col) ∈ staged := by simpa using hc
    cases hm : multipliers cell.row cell.col with
    | none => simp [hc, hmem, hm, Nat.mul_one]
    | some k => cases k <;> simp [hc, hmem, hm, Nat.mul_one]
  · have hcf : staged.contains (cell.row, cell.col) = false := by
      rw [← Bool.not_eq_true]; exact hc
    have hmem : (cell.row, cell.col) ∉ staged := by simpa using hcf
    simp [hcf, hmem, Nat.mul_one]

theorem scoreFold (staged : List (Nat × Nat)) (cells : List Cell) :
    ∀ wm ls : Nat,
      cells.foldl (scoreStep staged) (wm, ls) =
        (wm * (cells.map (cellWordMult staged)).prod,
          ls + (cells.map (cellScore staged)).sum) := by
  induction cells with
  | nil => intro wm ls; simp
  | cons c cs ih =>
    intro wm ls
    rw [List.foldl_cons, scoreStep_eq, ih]
    simp [Nat.mul_assoc, Nat.add_assoc]

theorem scoreCells_eq (staged : List (Nat × Nat)) (cells : List Cell) :
    scoreCells staged cells =
      MoveOutcome.ok
        ((cells.map (cellScore staged)).sum * (cells.map (cellWordMult staged)).prod)
        (String.join (cells.map fun cl => cl.tile.letter)) := by
  unfold scoreCells
  rw [scoreFold]
  simp

theorem extendLow_le (occ : Nat → Bool) (n : Nat) : extendLow occ n ≤ n := by
  induction n with
  | zero => exact Nat.le_refl 0
  | succ n ih =>
    unfold extendLow
    by_cases h : occ n = true
    · rw [if_pos h]; exact Nat.le_trans ih (Nat.le_succ n)
    · rw [Bool.not_eq_true] at h; rw [h]; simp

theorem extendLow_occ (occ : Nat → Bool) (n : Nat) :
    ∀ c, extendLow occ n ≤ c → c < n → occ c = true := by
  induction n with
  | zero => intro c _ h2; omega
  | succ n ih =>
    intro c h1 h2
    unfold extendLow at h1
    by_cases h : occ n = true
    · rw [if_pos h] at h1
      by_cases hc : c = n
      · rw [hc]; exact h
      · exact ih c h1 (by omega)
    · rw [Bool.not_eq_true] at h
      rw [h] at h1
      simp at h1
      omega

theorem extendLow_stop (occ : Nat → Bool) (n : Nat) :
    extendLow occ n = 0 ∨ occ (extendLow occ n - 1) = false := by
  induction n with
  | zero => exact Or.inl rfl
  | succ n ih =>
    unfold extendLow
    by_cases h : occ n = true
    · rw [if_pos h]; exact ih
    · rw [Bool.not_eq_true] at h
      rw [h]
      simp
      exact h

theorem extendLow_fix (occ : Nat → Bool) (n : Nat)
    (h : n = 0 ∨ occ (n - 1) = false) : extendLow occ n = n := by
  cases n with
  | zero => rfl
  | succ n =>
    rcases h with h | h
    · cases h
    · unfold extendLow
      simp at h
      rw [h]
      simp

theorem extendHigh_ge (occ : Nat → Bool) (fuel : Nat) :
    ∀ e, e ≤ extendHigh occ fuel e := by
  induction fuel with
  | zero => intro e; exact Nat.le_refl e
  | succ fuel ih =>
    intro e
    unfold extendHigh
    by_cases h14 : e < 14
    · rw [if_pos h14]
      by_cases h : occ (e + 1) = true
      · rw [if_pos h]
        exact Nat.le_trans (Nat.le_succ e) (ih (e + 1))
      · rw [Bool.not_eq_true] at h; rw [h]; simp
    · rw [if_neg h14]

theorem extendHigh_occ (occ : Nat → Bool) (fuel : Nat) :
    ∀ e c, e < c → c ≤ extendHigh occ fuel e → occ c = true := by
  induction fuel with
  | zero => intro e c h1 h2; unfold extendHigh at h2; omega
  | succ fuel ih =>
    intro e c h1 h2
    unfold extendHigh at h2
    by_cases h14 : e < 14
    · rw [if_pos h14] at h2
      by_cases h : occ (e + 1) = true
      · rw [if_pos h] at h2
        by_cases hc : c = e + 1
        · rw [hc]; exact h
        · exact ih (e + 1) c (by omega) h2
      · rw [Bool.not_eq_true] at h
        rw [h] at h2
        simp at h2
        omega
    · rw [if_neg h14] at h2; omega

theorem extendHigh_stop (occ : Nat → Bool) (fuel : Nat) :
    ∀ e, 14 ≤ e + fuel →
      14 ≤ extendHigh occ fuel e ∨ occ (extendHigh occ fuel e + 1) = false := by
  induction fuel with
  | zero => intro e h; unfold extendHigh; omega
  | succ fuel ih =>
    intro e h
    unfold extendHigh
    by_cases h14 : e < 14
    · rw [if_pos h14]
      by_cases hocc : occ (e + 1) = true
      · rw [if_pos hocc]
        exact ih (e + 1) (by omega)
      · rw [Bool.not_eq_true] at hocc
        rw [hocc]
        simp
        exact Or.inr hocc
    · rw [if_neg h14]
      omega

theorem extendHigh_fix (occ : Nat → Bool) (fuel e : Nat)
    (h : 14 ≤ e ∨ occ (e + 1) = false) : extendHigh occ fuel e = e := by
  cases fuel with
  | zero => rfl
  | succ fuel =>
    unfold extendHigh
    by_cases h14 : e < 14
    · rw [if_pos h14]
      rcases h with h | h
      · omega
      · rw [h]; simp
    · rw [if_neg h14]

theorem collectIdx_isSome (get : Nat → Option Tile) (l : List Nat)
    (h : ∀ i ∈ l, (get i).isSome = true) : ∃ cs, collectIdx get l = some cs := by
  induction l with
  | nil => exact ⟨[], rfl⟩
  | cons i is ih =>
    have hi := h i (List.mem_cons_self i is)
    rcases Option.isSome_iff_exists.mp hi with ⟨t, ht⟩
    rcases ih (fun j hj => h j (List.mem_cons_of_mem i hj)) with ⟨cs, hcs⟩
    refine ⟨(i, t) :: cs, ?_⟩
    unfold collectIdx
    rw [ht, hcs]
    rfl

theorem collectIdx_none (get : Nat → Option Tile) (l : List Nat) (i : Nat)
    (hi : i ∈ l) (h : get i = none) : collectIdx get l = none := by
  induction l with
  | nil => cases hi
  | cons j js ih =>
    unfold collectIdx
    rcases List.mem_cons.mp hi with rfl | hi2
    · rw [h]
    · cases hj : get j with
      | none => rfl
      | some t => rw [ih hi2]; rfl

theorem computeMoveScore_horiz (p0 : Nat × Nat) (rest locked : List (Nat × Nat)) (b : BoardT)
    (hgate : (locked.isEmpty && !((p0 :: rest).contains (7, 7))) = false)
    (hrow : ((p0 :: rest).all fun p => p.1 == p0.1) = true) :
    computeMoveScore (p0 :: rest) locked b =
      computeFromAxis true (p0 :: rest) p0.1 p0.2 b := by
  simp only [computeMoveScore]
  rw [hgate, hrow]
  simp

theorem computeMoveScore_vert (p0 : Nat × Nat) (rest locked : List (Nat × Nat)) (b : BoardT)
    (hgate : (locked.isEmpty && !((p0 :: rest).contains (7, 7))) = false)
    (hrow : ((p0 :: rest).all fun p => p.1 == p0.1) = false)
    (hcol : ((p0 :: rest).all fun p => p.2 == p0.2) = true) :
    computeMoveScore (p0 :: rest) locked b =
      computeFromAxis false (p0 :: rest) p0.1 p0.2 b := by
  simp only [computeMoveScore]
  rw [hgate, hrow, hcol]
  simp

theorem computeFromAxis_horiz_ok (staged : List (Nat × Nat)) (row col : Nat) (b : BoardT)
    (hall : ∀ c ∈ List.range'
        (extendLow (fun c => (b row c).isSome) (minNat (staged.map fun p => p.2)))
        (extendHigh (fun c => (b row c).isSome) 15 (maxNat (staged.map fun p => p.2)) + 1
          - extendLow (fun c => (b row c).isSome) (minNat (staged.map fun p => p.2))),
      (b row c).isSome = true) :
    ∃ sc w, computeFromAxis true staged row col b = MoveOutcome.ok sc w := by
  rcases collectIdx_isSome (fun c => b row c) _ hall with ⟨cs, hcs⟩
  simp only [computeFromAxis, if_true]
  rw [hcs]
  exact ⟨_, _, rfl⟩

theorem computeFromAxis_horiz_gap (staged : List (Nat × Nat)) (row col : Nat) (b : BoardT)
    (c0 : Nat)
    (hc0 : c0 ∈ List.range'
        (extendLow (fun c => (b row c).isSome) (minNat (staged.map fun p => p.2)))
        (extendHigh (fun c => (b row c).isSome) 15 (maxNat (staged.map fun p => p.2)) + 1
          - extendLow (fun c => (b row c).isSome) (minNat (staged.map fun p => p.2))))
    (hempty : b row c0 = none) :
    computeFromAxis true staged row col b = MoveOutcome.err "There is a gap in the word." := by
  simp only [computeFromAxis, if_true]
  rw [collectIdx_none (fun c => b row c) _ c0 hc0 hempty]

theorem computeFromAxis_vert_ok (staged : List (Nat × Nat)) (row col : Nat) (b : BoardT)
    (hall : ∀ r ∈ List.range'
        (extendLow (fun r => (b r col).isSome) (minNat (staged.map fun p => p.1)))
        (extendHigh (fun r => (b r col).isSome) 15 (maxNat (staged.map fun p => p.1)) + 1
          - extendLow (fun r => (b r col).isSome) (minNat (staged.map fun p => p.1))),
      (b r col).isSome = true) :
    ∃ sc w, computeFromAxis false staged row col b = MoveOutcome.ok sc w := by
  rcases collectIdx_isSome (fun r => b r col) _ hall with ⟨cs, hcs⟩
  simp only [computeFromAxis, Bool.false_eq_true, if_false]
  rw [hcs]
  exact ⟨_, _, rfl⟩

theorem computeFromAxis_vert_gap (staged : List (Nat × Nat)) (row col : Nat) (b : BoardT)
    (r0 : Nat)
    (hr0 : r0 ∈ List.range'
        (extendLow (fun r => (b r col).isSome) (minNat (staged.map fun p => p.1)))
        (extendHigh (fun r => (b r col).isSome) 15 (maxNat (staged.map fun p => p.1)) + 1
          - extendLow (fun r => (b r col).isSome) (minNat (staged.map fun p => p.1))))
    (hempty : b r0 col = none) :
    computeFromAxis false staged row col b = MoveOutcome.err "There is a gap in the word." := by
  simp only [computeFromAxis, Bool.false_eq_true, if_false]
  rw [collectIdx_none (fun r => b r col) _ r0 hr0 hempty]

theorem cellsFromAxis_ok (isHorizontal : Bool) (staged : List (Nat × Nat))
    (row col : Nat) (b : BoardT) (cells : List Cell)
    (h : cellsFromAxis isHorizontal staged row col b = some cells) :
    computeFromAxis isHorizontal staged row col b = scoreCells staged cells := by
  cases isHorizontal with
  | true =>
    simp only [cellsFromAxis, if_true] at h
    simp only [computeFromAxis, if_true]
    cases hcol : collectIdx (fun c => b row c)
        (List.range'
          (extendLow (fun c => (b row c).isSome) (minNat (staged.map fun p => p.2)))
          (extendHigh (fun c => (b row c).isSome) 15 (maxNat (staged.map fun p => p.2)) + 1
            - extendLow (fun c => (b row c).isSome) (minNat (staged.map fun p => p.2)))) with
    | none =>
      rw [hcol] at h
      exact absurd h (by simp)
    | some pairs =>
      rw [hcol] at h
      have h3 : List.map (fun q => Cell.mk row q.1 q.2) pairs = cells := Option.some.inj h
      rw [← h3]
  | false =>
    simp only [cellsFromAxis, Bool.false_eq_true, if_false] at h
    simp only [computeFromAxis, Bool.false_eq_true, if_false]
    cases hrow : collectIdx (fun r => b r col)
        (List.range'
          (extendLow (fun r => (b r col).isSome) (minNat (staged.map fun p => p.1)))
          (extendHigh (fun r => (b r col).isSome) 15 (maxNat (staged.map fun p => p.1)) + 1
            - extendLow (fun r => (b r col).isSome) (minNat (staged.map fun p => p.1)))) with
    | none =>
      rw [hrow] at h
      exact absurd h (by simp)
    | some pairs =>
      rw [hrow] at h
      have h3 : List.map (fun q => Cell.mk q.1 col q.2) pairs = cells := Option.some.inj h
      rw [← h3]

/- =====================  concrete fixtures  ===================== -/

/-- A 1-point tile with letter A (from the tile distribution). -/
def tileA : Tile := ⟨"t1", "A", 1⟩

/-- A 3-point tile with letter B. -/
def tileB : Tile := ⟨"t2", "B", 3⟩

/-- A 3-point tile with letter C. -/
def tileC : Tile := ⟨"t3", "C", 3⟩

/-- Board with a single tile on the center square. -/
def boardCenterC : BoardT := fun r c => if r = 7 ∧ c = 7 then some tileC else none

/-- Board row 7 with tiles at columns 5, 7 (locked) and 9 (staged). -/
def boardRow757 : BoardT := fun r c =>
  if r = 7 ∧ c = 5 then some tileA
  else if r = 7 ∧ c = 7 then some tileB
  else if r = 7 ∧ c = 9 then some tileC else none

/-- Board row 7 with tiles at columns 5, 7 (locked) and 6 (staged, closing the gap). -/
def boardRow757Gap : BoardT := fun r c =>
  if r = 7 ∧ c = 5 then some tileA
  else if r = 7 ∧ c = 7 then some tileB
  else if r = 7 ∧ c = 6 then some tileC else none

/-- Board with a locked tile at (6,7) above a staged tile at the center (7,7). -/
def boardVert : BoardT := fun r c =>
  if r = 6 ∧ c = 7 then some tileB
  else if r = 7 ∧ c = 7 then some tileA else none

/-- Board with one isolated tile at (3,4). -/
def boardIso : BoardT := fun r c => if r = 3 ∧ c = 4 then some tileA else none

/-- Board with one tile at the corner (0,0). -/
def boardCorner : BoardT := fun r c => if r = 0 ∧ c = 0 then some tileA else none

/-- The sparse map holding one center tile under its well-formed key. -/
def mapCenter : List (String × Tile) := [("r7_c7", tileC)]

/- =====================  claim theorems  ===================== -/

/-- C1: whenever computeMoveScore reaches its scoring loop over the extent
cells, every staged cell contributes its tile's base value times the square's
letter multiplier (x2 DL, x3 TL), every staged cell's word multiplier (x2 DW,
x3 TW) enters a running product, every non-staged (previously locked) cell
contributes only its base value with no multiplier, the final score is the
contribution sum times the word-multiplier product, and the word is the
concatenation of the extent's letters in traversal order. -/
theorem c1_scoring_formula (staged locked : List (Nat × Nat)) (b : BoardT)
    (cells : List Cell) (h : scoredCells staged locked b = some cells) :
    computeMoveScore staged locked b =
      MoveOutcome.ok
        ((cells.map (cellScore staged)).sum * (cells.map (cellWordMult staged)).prod)
        (String.join (cells.map fun cl => cl.tile.letter)) := by
  cases staged with
  | nil => exact absurd h (by simp [scoredCells])
  | cons p0 rest =>
    simp only [scoredCells] at h
    simp only [computeMoveScore]
    cases h1 : (locked.isEmpty && !((p0 :: rest).contains (7, 7))) with
    | true =>
      rw [h1] at h
      simp at h
    | false =>
      rw [h1] at h
      cases h2 : ((!((p0 :: rest).all fun p => p.1 == p0.1))
          && !((p0 :: rest).all fun p => p.2 == p0.2)) with
      | true =>
        rw [h2] at h
        simp at h
      | false =>
        rw [h2] at h
        simp only [Bool.false_eq_true, if_false] at h ⊢
        rw [cellsFromAxis_ok _ _ _ _ _ _ h, scoreCells_eq]

theorem c1_scoring_formula_witness :
    scoredCells [(7, 7)] [] boardCenterC = some [⟨7, 7, tileC⟩] ∧
    computeMoveScore [(7, 7)] [] boardCenterC =
      MoveOutcome.ok
        ((([⟨7, 7, tileC⟩] : List Cell).map (cellScore [(7, 7)])).sum
          * (([⟨7, 7, tileC⟩] : List Cell).map (cellWordMult [(7, 7)])).prod)
        (String.join (([⟨7, 7, tileC⟩] : List Cell).map fun cl => cl.tile.letter)) :=
  ⟨by decide, c1_scoring_formula [(7, 7)] [] boardCenterC [⟨7, 7, tileC⟩] (by decide)⟩

/-- C2 counterexample: locked tiles at row 7 columns 5 and 7 and a single
staged tile at column 9, disconnected from them, does NOT fail with a gap
error as the claim asserts; the validator scores it as its own one-letter
word. -/
theorem c2_gap_claim_counterexample :
    computeMoveScore [(7, 9)] [(7, 5), (7, 7)] boardRow757 = MoveOutcome.ok 3 "C" ∧
    computeMoveScore [(7, 9)] [(7, 5), (7, 7)] boardRow757 ≠
      MoveOutcome.err "There is a gap in the word." :=
  ⟨by decide, by decide⟩

/-- C2 (amended): for every non-empty single-axis staged set passing the
center gate, the word extent extends outward from the min/max staged
coordinate on the chosen axis through occupied cells until an empty cell or
the board edge, every cell of the extent is walked, a gap error is produced
exactly when some span cell is empty and the move scores otherwise; a
disconnected single staged tile forms its own extent (and therefore succeeds,
contrary to the original claim's second example). -/
theorem c2_extent_and_gap (p0 : Nat × Nat) (rest locked : List (Nat × Nat)) (b : BoardT)
    (hgate : (locked.isEmpty && !((p0 :: rest).contains (7, 7))) = false) :
    (∀ s e,
      ((p0 :: rest).all fun p => p.1 == p0.1) = true →
      s = extendLow (fun c => (b p0.1 c).isSome) (minNat ((p0 :: rest).map fun p => p.2)) →
      e = extendHigh (fun c => (b p0.1 c).isSome) 15 (maxNat ((p0 :: rest).map fun p => p.2)) →
      (s ≤ minNat ((p0 :: rest).map fun p => p.2)
        ∧ maxNat ((p0 :: rest).map fun p => p.2) ≤ e)
      ∧ (∀ c, s ≤ c → c < minNat ((p0 :: rest).map fun p => p.2) → (b p0.1 c).isSome = true)
      ∧ (∀ c, maxNat ((p0 :: rest).map fun p => p.2) < c → c ≤ e → (b p0.1 c).isSome = true)
      ∧ (s = 0 ∨ (b p0.1 (s - 1)).isSome = false)
      ∧ (14 ≤ e ∨ (b p0.1 (e + 1)).isSome = false)
      ∧ ((∀ c ∈ List.range' s (e + 1 - s), (b p0.1 c).isSome = true) →
          ∃ sc w, computeMoveScore (p0 :: rest) locked b = MoveOutcome.ok sc w)
      ∧ (∀ c0 ∈ List.range' s (e + 1 - s), b p0.1 c0 = none →
          computeMoveScore (p0 :: rest) locked b =
            MoveOutcome.err "There is a gap in the word."))
    ∧ (∀ s e,
      ((p0 :: rest).all fun p => p.1 == p0.1) = false →
      ((p0 :: rest).all fun p => p.2 == p0.2) = true →
      s = extendLow (fun r => (b r p0.2).isSome) (minNat ((p0 :: rest).map fun p => p.1)) →
      e = extendHigh (fun r => (b r p0.2).isSome) 15 (maxNat ((p0 :: rest).map fun p => p.1)) →
      (s ≤ minNat ((p0 :: rest).map fun p => p.1)
        ∧ maxNat ((p0 :: rest).map fun p => p.1) ≤ e)
      ∧ (∀ r, s ≤ r → r < minNat ((p0 :: rest).map fun p => p.1) → (b r p0.2).isSome = true)
      ∧ (∀ r, maxNat ((p0 :: rest).map fun p => p.1) < r → r ≤ e → (b r p0.2).isSome = true)
      ∧ (s = 0 ∨ (b (s - 1) p0.2).isSome = false)
      ∧ (14 ≤ e ∨ (b (e + 1) p0.2).isSome = false)
      ∧ ((∀ r ∈ List.range' s (e + 1 - s), (b r p0.2).isSome = true) →
          ∃ sc w, computeMoveScore (p0 :: rest) locked b = MoveOutcome.ok sc w)
      ∧ (∀ r0 ∈ List.range' s (e + 1 - s), b r0 p0.2 = none →
          computeMoveScore (p0 :: rest) locked b =
            MoveOutcome.err "There is a gap in the word.")) := by
  constructor
  · intro s e hrow hs he
    subst hs
    subst he
    refine ⟨⟨extendLow_le _ _, extendHigh_ge _ _ _⟩, ?_, ?_, extendLow_stop _ _, ?_, ?_, ?_⟩
    · intro c h1 h2
      exact extendLow_occ _ _ c h1 h2
    · intro c h1 h2
      exact extendHigh_occ _ 15 _ c h1 h2
    · exact extendHigh_stop (fun c => (b p0.1 c).isSome) 15 _ (by omega)
    · intro hall
      rw [computeMoveScore_horiz p0 rest locked b hgate hrow]
      exact computeFromAxis_horiz_ok _ _ _ _ hall
    · intro c0 hc0 hempty
      rw [computeMoveScore_horiz p0 rest locked b hgate hrow]
      exact computeFromAxis_horiz_gap _ _ _ _ c0 hc0 hempty
  · intro s e hrow hcol hs he
    subst hs
    subst he
    refine ⟨⟨extendLow_le _ _, extendHigh_ge _ _ _⟩, ?_, ?_, extendLow_stop _ _, ?_, ?_, ?_⟩
    · intro r h1 h2
      exact extendLow_occ _ _ r h1 h2
    · intro r h1 h2
      exact extendHigh_occ _ 15 _ r h1 h2
    · exact extendHigh_stop (fun r => (b r p0.2).isSome) 15 _ (by omega)
    · intro hall
      rw [computeMoveScore_vert p0 rest locked b hgate hrow hcol]
      exact computeFromAxis_vert_ok _ _ _ _ hall
    · intro r0 hr0 hempty
      rw [computeMoveScore_vert p0 rest locked b hgate hrow hcol]
      exact computeFromAxis_vert_gap _ _ _ _ r0 hr0 hempty

theorem c2_extent_and_gap_witness :
    ∃ sc w, computeMoveScore [(7, 6)] [(7, 5), (7, 7)] boardRow757Gap =
      MoveOutcome.ok sc w :=
  ((c2_extent_and_gap (7, 6) [] [(7, 5), (7, 7)] boardRow757Gap (by decide)).1
    5 7 (by decide) (by decide) (by decide)).2.2.2.2.2.1 (by decide)

/-- C3: with no locked tile anywhere, a staged set missing the center cell
(7,7) fails with the first-move error; a staged set containing (7,7) that
forms a contiguous single-axis run (its whole extent occupied) succeeds. -/
theorem c3_first_move_center (p0 : Nat × Nat) (rest locked : List (Nat × Nat)) (b : BoardT) :
    (locked = [] → ((p0 :: rest).contains (7, 7)) = false →
      computeMoveScore (p0 :: rest) locked b =
        MoveOutcome.err "First move must use the center square.")
    ∧ (((p0 :: rest).contains (7, 7)) = true →
      (((p0 :: rest).all fun p => p.1 == p0.1) = true →
        (∀ c ∈ List.range'
            (extendLow (fun c => (b p0.1 c).isSome) (minNat ((p0 :: rest).map fun p => p.2)))
            (extendHigh (fun c => (b p0.1 c).isSome) 15 (maxNat ((p0 :: rest).map fun p => p.2)) + 1
              - extendLow (fun c => (b p0.1 c).isSome) (minNat ((p0 :: rest).map fun p => p.2))),
          (b p0.1 c).isSome = true) →
        ∃ sc w, computeMoveScore (p0 :: rest) locked b = MoveOutcome.ok sc w)
      ∧ (((p0 :: rest).all fun p => p.1 == p0.1) = false →
        ((p0 :: rest).all fun p => p.2 == p0.2) = true →
        (∀ r ∈ List.range'
            (extendLow (fun r => (b r p0.2).isSome) (minNat ((p0 :: rest).map fun p => p.1)))
            (extendHigh (fun r => (b r p0.2).isSome) 15 (maxNat ((p0 :: rest).map fun p => p.1)) + 1
              - extendLow (fun r => (b r p0.2).isSome) (minNat ((p0 :: rest).map fun p => p.1))),
          (b r p0.2).isSome = true) →
        ∃ sc w, computeMoveScore (p0 :: rest) locked b = MoveOutcome.ok sc w)) := by
  refine ⟨?_, ?_⟩
  · intro hl hc
    subst hl
    simp only [computeMoveScore]
    rw [hc]
    simp
  · intro hcen
    have hgate : (locked.isEmpty && !((p0 :: rest).contains (7, 7))) = false := by
      rw [hcen]
      simp
    refine ⟨?_, ?_⟩
    · intro hrow hall
      rw [computeMoveScore_horiz p0 rest locked b hgate hrow]
      exact computeFromAxis_horiz_ok _ _ _ _ hall
    · intro hrow hcol hall
      rw [computeMoveScore_vert p0 rest locked b hgate hrow hcol]
      exact computeFromAxis_vert_ok _ _ _ _ hall

theorem c3_first_move_center_witness :
    computeMoveScore [(7, 8)] [] boardCenterC =
      MoveOutcome.err "First move must use the center square." ∧
    ∃ sc w, computeMoveScore [(7, 7)] [] boardCenterC = MoveOutcome.ok sc w :=
  ⟨(c3_first_move_center (7, 8) [] [] boardCenterC).1 rfl (by decide),
   ((c3_first_move_center (7, 7) [] [] boardCenterC).2 (by decide)).1 (by decide) (by decide)⟩

/-- C4: committing a move or passing flips activePlayerUid to the other
seated player when both slots are filled, and leaves it unchanged when only
one player is seated; both patches carry exactly this next active player. -/
theorem c4_turn_flip (p1 p2 a : String) (g : Game) (uid : String) (score : Nat)
    (word : String) (lb : BoardT) (rack bag : List Tile) (now : Nat) :
    ((a = p1 → nextActivePlayerUid p1 (some p2) a = p2)
      ∧ (a = p2 → nextActivePlayerUid p1 (some p2) a = p1))
    ∧ nextActivePlayerUid p1 none a = a
    ∧ (commitMovePatch g uid score word lb rack bag now).activePlayerUid =
        some (nextActivePlayerUid g.player1Uid g.player2Uid g.activePlayerUid)
    ∧ (passTurnPatch g uid now).activePlayerUid =
        some (nextActivePlayerUid g.player1Uid g.player2Uid g.activePlayerUid) := by
  refine ⟨⟨?_, ?_⟩, rfl, rfl, rfl⟩
  · intro h
    subst h
    simp [nextActivePlayerUid]
  · intro h
    rw [← h]
    by_cases hep : a = p1
    · simp [nextActivePlayerUid, hep]
    · simp [nextActivePlayerUid, hep]

/-- Dummy game used to instantiate witnesses. -/
def gameDummy : Game :=
  ⟨GameStatus.waiting, "alice", none, "alice", [], fun _ => none, [], fun _ => none, none, 0⟩

theorem c4_turn_flip_witness :
    nextActivePlayerUid "alice" (some "bob") "alice" = "bob" ∧
    nextActivePlayerUid "alice" (some "bob") "bob" = "alice" :=
  ⟨(c4_turn_flip "alice" "bob" "alice" gameDummy "u" 0 "" emptyTileBoard [] [] 0).1.1 rfl,
   (c4_turn_flip "alice" "bob" "bob" gameDummy "u" 0 "" emptyTileBoard [] [] 0).1.2 rfl⟩

/-- C5: the two board conversions are mutually inverse: hydrating the emitted
sparse map reproduces any in-range dense board cell for cell, and emitting the
hydrated board of a well-formed-keyed record preserves every lookup. -/
theorem c5_round_trip (b : BoardT) (m : List (String × Tile))
    (hb : ∀ r c, 15 ≤ r ∨ 15 ≤ c → b r c = none)
    (hwf : ∀ e ∈ m, ∃ r c : Fin 15, e.1 = keyFor r.val c.val)
    (huniq : ∀ e ∈ m, ∀ e2 ∈ m, e.1 = e2.1 → e = e2) :
    mapToBoard (boardToMap b) = b
    ∧ ∀ k, mapLookup (boardToMap (mapToBoard m)) k = mapLookup m k := by
  constructor
  · funext r c
    by_cases hr : r < 15 ∧ c < 15
    · have h1 := mapToBoard_eq_lookup (boardToMap b) (boardToMap_wf b)
        (boardToMap_uniq b) ⟨r, hr.1⟩ ⟨c, hr.2⟩
      have h2 := lookup_boardToMap_keyFor b ⟨r, hr.1⟩ ⟨c, hr.2⟩
      simp only at h1 h2
      rw [h1, h2]
    · have hor : 15 ≤ r ∨ 15 ≤ c := by omega
      rw [mapToBoard_outOfRange _ r c hor, hb r c hor]
  · intro k
    by_cases hex : ∃ r c : Fin 15, k = keyFor r.val c.val
    · obtain ⟨r, c, rfl⟩ := hex
      rw [lookup_boardToMap_keyFor (mapToBoard m) r c,
        mapToBoard_eq_lookup m hwf huniq r c]
    · have h1 : mapLookup m k = none := by
        unfold mapLookup
        rw [find?_eq_none_of_gm]
        · rfl
        · intro y hy
          by_cases hk : y.1 = k
          · exfalso
            rcases hwf y hy with ⟨ry, cy, hky⟩
            exact hex ⟨ry, cy, by rw [← hk, hky]⟩
          · simp [hk]
      have h2 : mapLookup (boardToMap (mapToBoard m)) k = none := by
        unfold mapLookup
        rw [find?_eq_none_of_gm]
        · rfl
        · intro y hy
          by_cases hk : y.1 = k
          · exfalso
            rcases boardToMap_wf _ y hy with ⟨ry, cy, hky⟩
            exact hex ⟨ry, cy, by rw [← hk, hky]⟩
          · simp [hk]
      rw [h1, h2]

theorem c5_round_trip_witness :
    mapToBoard (boardToMap boardCenterC) = boardCenterC ∧
    ∀ k, mapLookup (boardToMap (mapToBoard mapCenter)) k = mapLookup mapCenter k :=
  c5_round_trip boardCenterC mapCenter
    (by
      intro r c h
      have hne : ¬(r = 7 ∧ c = 7) := by omega
      simp [boardCenterC, hne])
    (by decide) (by decide)

/-- C6: undo is permitted exactly when the caller is the recorded actor, the
record's word is not the UNDO sentinel and nothing is staged; the record an
undo itself writes has word UNDO, so a second undo is rejected. -/
theorem c6_undo_gating :
    (∀ uid staged, canUndoLastMove none uid staged = false)
    ∧ (∀ (lm : LastMove) (uid : Option String) (staged : Nat),
        canUndoLastMove (some lm) uid staged = true ↔
          (uid = some lm.byUid ∧ lm.word ≠ "UNDO" ∧ staged = 0))
    ∧ (∀ (lm : LastMove) (uid : String) (now : Nat) (lm2 : LastMove),
        (undoMovePatch lm uid now).lastMove = some lm2 →
        ∀ (u : Option String) (s : Nat), canUndoLastMove (some lm2) u s = false) := by
  refine ⟨fun _ _ => rfl, ?_, ?_⟩
  · intro lm uid staged
    constructor
    · intro h
      simp only [canUndoLastMove, Bool.and_eq_true, beq_iff_eq, bne_iff_ne,
        Bool.not_eq_true', decide_eq_false_iff_not] at h
      exact ⟨h.1.1.symm, h.1.2, by omega⟩
    · intro h
      simp only [canUndoLastMove, Bool.and_eq_true, beq_iff_eq, bne_iff_ne,
        Bool.not_eq_true', decide_eq_false_iff_not]
      exact ⟨⟨h.1.symm, h.2.1⟩, by omega⟩
  · intro lm uid now lm2 hlm u s
    have h2 := Option.some.inj hlm
    subst h2
    simp [canUndoLastMove]

/-- Last-move record used to instantiate witnesses. -/
def lmTest : LastMove :=
  ⟨"HELLO", 5, "alice", 0, [], [], fun _ => none, fun _ => none, "alice"⟩

theorem c6_undo_gating_witness :
    canUndoLastMove
      (some ⟨"UNDO", 0, "alice", 1, [], [], fun _ => none, fun _ => none, "alice"⟩)
      (some "alice") 0 = false :=
  c6_undo_gating.2.2 lmTest "alice" 1
    ⟨"UNDO", 0, "alice", 1, [], [], fun _ => none, fun _ => none, "alice"⟩
    rfl (some "alice") 0

/-- The coordinate-key pattern stated by the spec, defined from the spec's
words: a key is the literal "row", a decimal row index, the literal "_col"
and a decimal column index, with both indices in [0,14]. -/
def specRowColPattern (k : String) : Prop :=
  ∃ R C : Nat, R ≤ 14 ∧ C ≤ 14 ∧ k = "row" ++ toString R ++ "_col" ++ toString C

/-- C7 counterexample: the key the code emits for cell (0,0) is "r0_c0",
which does not follow the spec's claimed "row{R}_col{C}" pattern. -/
theorem c7_key_pattern_counterexample :
    boardToMap boardCorner = [("r0_c0", tileA)] ∧ ¬ specRowColPattern "r0_c0" := by
  constructor
  · decide
  · rintro ⟨R, C, _, _, h⟩
    have hd := congrArg String.data h
    rw [String.data_append, String.data_append, String.data_append] at hd
    have h5 : ("r0_c0" : String).data = ['r', '0', '_', 'c', '0'] := rfl
    have h3 : ("row" : String).data = ['r', 'o', 'w'] := rfl
    rw [h5, h3] at hd
    simp at hd

/-- mapToBoard skips an entry with an unparseable or out-of-range key without
affecting the hydrated board. -/
theorem mapToBoardAux_skip (k : String) (t : Tile) (h : coordOf (k, t) = none) :
    ∀ (m1 m2 : List (String × Tile)) (b0 : BoardT),
      mapToBoardAux (m1 ++ (k, t) :: m2) b0 = mapToBoardAux (m1 ++ m2) b0 := by
  intro m1
  induction m1 with
  | nil =>
    intro m2 b0
    simp [mapToBoardAux, mapStep, h]
  | cons e m1 ih =>
    intro m2 b0
    simp only [List.cons_append, mapToBoardAux, List.foldl_cons]
    exact ih m2 (mapStep b0 e)

/-- C7 (amended): every key emitted by the dense-to-sparse conversion follows
the pattern "r{R}_c{C}" with R, C in [0,14]; an entry whose key does not
parse to that pattern, or parses to indices outside [0,14], is silently
skipped during hydration. -/
theorem c7_key_pattern_amended :
    (∀ (b : BoardT) (e : String × Tile), e ∈ boardToMap b →
      ∃ r c : Fin 15, e.1 = keyFor r.val c.val)
    ∧ (∀ (k : String) (t : Tile) (m1 m2 : List (String × Tile)),
        coordOf (k, t) = none →
        mapToBoard (m1 ++ (k, t) :: m2) = mapToBoard (m1 ++ m2))
    ∧ (∀ (k : String) (t : Tile), coordOf (k, t) = none ↔
        (parseKey k = none ∨ ∃ r c : Nat, parseKey k = some (r, c) ∧ (14 < r ∨ 14 < c))) := by
  refine ⟨fun b e he => boardToMap_wf b e he, ?_, ?_⟩
  · intro k t m1 m2 h
    unfold mapToBoard
    exact mapToBoardAux_skip k t h m1 m2 emptyTileBoard
  · intro k t
    constructor
    · intro h
      unfold coordOf at h
      cases hp : parseKey k with
      | none => exact Or.inl rfl
      | some rc =>
        obtain ⟨r1, c1⟩ := rc
        by_cases hle : r1 ≤ 14 ∧ c1 ≤ 14
        · rw [hp] at h
          simp [hle] at h
        · exact Or.inr ⟨r1, c1, rfl, by omega⟩
    · intro h
      unfold coordOf
      rcases h with hp | ⟨r, c, hp, hgt⟩
      · rw [hp]
      · have hne : ¬(r ≤ 14 ∧ c ≤ 14) := by omega
        simp [hp, hne]

theorem c7_key_pattern_amended_witness :
    mapToBoard ([("r0_c0", tileA)] ++ ("bogus", tileB) :: []) =
      mapToBoard ([("r0_c0", tileA)] ++ []) ∧
    ∃ r c : Fin 15, ("r0_c0", tileA).1 = keyFor r.val c.val :=
  ⟨c7_key_pattern_amended.2.1 "bogus" tileB [("r0_c0", tileA)] [] (by decide),
   c7_key_pattern_amended.1 boardCorner ("r0_c0", tileA) (by decide)⟩

/-- C8 counterexample: a single staged tile at (7,7) with a locked tile just
above it at (6,7) scores 2 with word "A" under the horizontal resolution the
validator uses, while resolving the same move as vertical would produce 8
with word "BA": the horizontal choice is not immaterial. -/
theorem c8_single_tile_counterexample :
    computeMoveScore [(7, 7)] [(6, 7)] boardVert = MoveOutcome.ok 2 "A"
    ∧ computeFromAxis false [(7, 7)] 7 7 boardVert = MoveOutcome.ok 8 "BA"
    ∧ computeMoveScore [(7, 7)] [(6, 7)] boardVert ≠
        computeFromAxis false [(7, 7)] 7 7 boardVert :=
  ⟨by decide, by decide, by decide⟩

/-- C8 (amended): a single staged tile is always resolved as horizontal; this
choice agrees with the vertical resolution when the staged cell has no
occupied neighbor on either axis (and then only: an occupied vertical or
horizontal neighbor changes the extent, see the counterexample). -/
theorem c8_single_tile (p : Nat × Nat) (locked : List (Nat × Nat)) (b : BoardT)
    (hgate : (locked.isEmpty && !([p].contains (7, 7))) = false) :
    computeMoveScore [p] locked b = computeFromAxis true [p] p.1 p.2 b
    ∧ ((p.2 = 0 ∨ b p.1 (p.2 - 1) = none) →
       (14 ≤ p.2 ∨ b p.1 (p.2 + 1) = none) →
       (p.1 = 0 ∨ b (p.1 - 1) p.2 = none) →
       (14 ≤ p.1 ∨ b (p.1 + 1) p.2 = none) →
       computeFromAxis true [p] p.1 p.2 b = computeFromAxis false [p] p.1 p.2 b) := by
  constructor
  · exact computeMoveScore_horiz p [] locked b hgate (by simp)
  · intro hl hr hu hd
    have hsl : extendLow (fun c => (b p.1 c).isSome) (minNat ([p].map fun q => q.2)) = p.2 := by
      apply extendLow_fix
      rcases hl with h | h
      · exact Or.inl h
      · refine Or.inr ?_
        show (b p.1 (p.2 - 1)).isSome = false
        rw [h]
        rfl
    have hsh : extendHigh (fun c => (b p.1 c).isSome) 15 (maxNat ([p].map fun q => q.2)) = p.2 := by
      apply extendHigh_fix
      rcases hr with h | h
      · exact Or.inl h
      · refine Or.inr ?_
        show (b p.1 (p.2 + 1)).isSome = false
        rw [h]
        rfl
    have hvl : extendLow (fun r => (b r p.2).isSome) (minNat ([p].map fun q => q.1)) = p.1 := by
      apply extendLow_fix
      rcases hu with h | h
      · exact Or.inl h
      · refine Or.inr ?_
        show (b (p.1 - 1) p.2).isSome = false
        rw [h]
        rfl
    have hvh : extendHigh (fun r => (b r p.2).isSome) 15 (maxNat ([p].map fun q => q.1)) = p.1 := by
      apply extendHigh_fix
      rcases hd with h | h
      · exact Or.inl h
      · refine Or.inr ?_
        show (b (p.1 + 1) p.2).isSome = false
        rw [h]
        rfl
    simp only [computeFromAxis, if_true, Bool.false_eq_true, if_false]
    rw [hsl, hsh, hvl, hvh]
    have hone1 : p.2 + 1 - p.2 = 1 := by omega
    have hone2 : p.1 + 1 - p.1 = 1 := by omega
    rw [hone1, hone2]
    have hr1 : List.range' p.2 1 = [p.2] := rfl
    have hr2 : List.range' p.1 1 = [p.1] := rfl
    rw [hr1, hr2]
    cases hb : b p.1 p.2 with
    | none => simp [collectIdx, hb]
    | some t => simp [collectIdx, hb]

theorem c8_single_tile_witness :
    computeMoveScore [(3, 4)] [(0, 0)] boardIso = computeFromAxis true [(3, 4)] 3 4 boardIso ∧
    computeFromAxis true [(3, 4)] 3 4 boardIso = computeFromAxis false [(3, 4)] 3 4 boardIso :=
  ⟨(c8_single_tile (3, 4) [(0, 0)] boardIso (by decide)).1,
   (c8_single_tile (3, 4) [(0, 0)] boardIso (by decide)).2
     (by decide) (by decide) (by decide) (by decide)⟩

/-- C9: clicking a locked tile, dragging it to any board cell, or dragging it
back to the rack all leave the board, rack and staged set unchanged. -/
theorem c9_locked_immutable (locked : List (Nat × Nat)) (st : LocalState)
    (r c : Nat) (t : Tile)
    (hlock : locked.contains (r, c) = true)
    (hcell : st.board r c = some t) :
    (∀ sel, handleBoardCellClick sel locked st r c = st)
    ∧ (∀ (dragTile : Tile) (tid : String) (trow tcol : Nat),
        commitDrop locked dragTile (DragSource.board tid r c)
          (some (DropTarget.board trow tcol)) st = st)
    ∧ (∀ (dragTile : Tile) (tid : String),
        commitDrop locked dragTile (DragSource.board tid r c)
          (some DropTarget.rack) st = st) := by
  have hmem : (r, c) ∈ locked := by simpa using hlock
  refine ⟨?_, ?_, ?_⟩
  · intro sel
    unfold handleBoardCellClick
    rw [hcell]
    cases sel with
    | some s => rfl
    | none => simp [hlock, hmem]
  · intro dragTile tid trow tcol
    simp only [commitDrop]
    cases htar : st.board trow tcol with
    | some x => rfl
    | none => simp [hlock, hmem]
  · intro dragTile tid
    simp only [commitDrop]
    rw [hcell]
    simp [hlock, hmem]

/-- Local state used to instantiate witnesses: center tile on the board. -/
def stTest : LocalState := ⟨boardCenterC, [], []⟩

theorem c9_locked_immutable_witness :
    handleBoardCellClick none [(7, 7)] stTest 7 7 = stTest ∧
    commitDrop [(7, 7)] tileA (DragSource.board "t3" 7 7)
      (some (DropTarget.board 3 3)) stTest = stTest ∧
    commitDrop [(7, 7)] tileA (DragSource.board "t3" 7 7)
      (some DropTarget.rack) stTest = stTest :=
  have h := c9_locked_immutable [(7, 7)] stTest 7 7 tileC (by decide) (by decide)
  ⟨h.1 none, h.2.1 tileA "t3" 3 3, h.2.2 tileA "t3"⟩

/-- C10: the patches written by commit, pass and undo never carry the
player1Uid, player2Uid or status fields, so merging any of them into any
persisted game leaves seating and status unchanged. -/
theorem c10_patch_frame (g : Game) (uid : String) (score : Nat) (word : String)
    (lb : BoardT) (rack bag : List Tile) (now : Nat) (lm : LastMove) :
    ((commitMovePatch g uid score word lb rack bag now).player1Uid = none
      ∧ (commitMovePatch g uid score word lb rack bag now).player2Uid = none
      ∧ (commitMovePatch g uid score word lb rack bag now).status = none)
    ∧ ((passTurnPatch g uid now).player1Uid = none
      ∧ (passTurnPatch g uid now).player2Uid = none
      ∧ (passTurnPatch g uid now).status = none)
    ∧ ((undoMovePatch lm uid now).player1Uid = none
      ∧ (undoMovePatch lm uid now).player2Uid = none
      ∧ (undoMovePatch lm uid now).status = none)
    ∧ (∀ g2 : Game,
        (applyPatch g2 (commitMovePatch g uid score word lb rack bag now)).player1Uid = g2.player1Uid
        ∧ (applyPatch g2 (commitMovePatch g uid score word lb rack bag now)).player2Uid = g2.player2Uid
        ∧ (applyPatch g2 (commitMovePatch g uid score word lb rack bag now)).status = g2.status
        ∧ (applyPatch g2 (passTurnPatch g uid now)).player1Uid = g2.player1Uid
        ∧ (applyPatch g2 (passTurnPatch g uid now)).player2Uid = g2.player2Uid
        ∧ (applyPatch g2 (passTurnPatch g uid now)).status = g2.status
        ∧ (applyPatch g2 (undoMovePatch lm uid now)).player1Uid = g2.player1Uid
        ∧ (applyPatch g2 (undoMovePatch lm uid now)).player2Uid = g2.player2Uid
        ∧ (applyPatch g2 (undoMovePatch lm uid now)).status = g2.status) :=
  ⟨⟨rfl, rfl, rfl⟩, ⟨rfl, rfl, rfl⟩, ⟨rfl, rfl, rfl⟩,
    fun _ => ⟨rfl, rfl, rfl, rfl, rfl, rfl, rfl, rfl, rfl⟩⟩

end GM
